import Mathlib

/-!
Shallow embedding of `go-timescheduler` (package `schedule`, file `cmd/timer.go`)
and verification of its specification.

Modelling choices:
* Go `time.Time` timestamps and `time.Duration` durations are modelled as `Int`
  (think nanoseconds).  `t1.Before(t2)` is `t1 < t2`, `t1.After(t2)` is `t1 > t2`,
  `t.Add(d)` is `t + d`.
* Go's ambient clock `time.Now()` is determinized into an explicit parameter
  `now : Int`, held constant for the duration of one operation (construction,
  `update`, `AddReminder`, `Due`, `Dump`).
* The scheduled item type (any `Schedulable`, i.e. `{DueTime() time.Time; Id() string}`)
  is modelled by a concrete structure `Item` carrying exactly those two fields.
* A Go runtime panic (index out of range on an empty bucket slice) is modelled
  by `Option.none`; operations that cannot panic on their reachable states are
  still typed `Option` so that the panic path is visible.
* `sync.Mutex` fields are dropped: all operations hold the scheduler lock for
  their whole duration, so the sequential semantics modelled here is exactly the
  per-operation semantics of the Go code.
-/

namespace TimeScheduler

/-- An item, standing for any Go value implementing `Schedulable`
(`DueTime() time.Time`, `Id() string`). -/
structure Item where
  dueTime : Int
  id : String
deriving Repr, DecidableEq

/-- `TimespanBucket` from `timer.go`: interval `[startTime, endTime)` plus the
items assigned to it (the `lock` field is dropped, see module docstring). -/
structure TimespanBucket where
  startTime : Int
  endTime : Int
  elements : List Item
deriving Repr, DecidableEq

/-- `NewTimespanBucket(startTime, endTime)`. -/
def NewTimespanBucket (startTime endTime : Int) : TimespanBucket :=
  { startTime := startTime, endTime := endTime, elements := [] }

/-- `Contains(in)`: `t.startTime.Before(in) && t.endTime.After(in)`. -/
def TimespanBucket.Contains (t : TimespanBucket) (i : Int) : Bool :=
  t.startTime < i && i < t.endTime

/-- `AddEntity(entity)`: append to `elements`. -/
def TimespanBucket.AddEntity (t : TimespanBucket) (entity : Item) : TimespanBucket :=
  { t with elements := t.elements ++ [entity] }

/-- `Past()`: `time.Now().After(t.endTime)`, with the clock made explicit. -/
def TimespanBucket.Past (t : TimespanBucket) (now : Int) : Bool :=
  now > t.endTime

/-- `Size()`: `len(t.elements)`. -/
def TimespanBucket.Size (t : TimespanBucket) : Nat :=
  t.elements.length

/-- `IsAfter(dueTime)`: `t.startTime.After(dueTime)`. -/
def TimespanBucket.IsAfter (t : TimespanBucket) (dueTime : Int) : Bool :=
  t.startTime > dueTime

/-- `IsBefore(dueTime)`: `t.endTime.Before(dueTime)`. -/
def TimespanBucket.IsBefore (t : TimespanBucket) (dueTime : Int) : Bool :=
  t.endTime < dueTime

/-- `Scheduler` from `timer.go` (the `ctx` and `mutex` fields are dropped). -/
structure Scheduler where
  buckets : List TimespanBucket
  blockSize : Int
  numBlocks : Int
deriving Repr, DecidableEq

/-- The bucket-building loops of `NewScheduler` and `update`: starting at
`startT`, build `count` consecutive buckets each spanning `blockSize`.
In `NewScheduler` this is `for i := 0; i < numBlocks; i++` with
`startTime := now + i*blockSize`; in `update` it is the loop that repeatedly
appends `[currentEndTime, currentEndTime+blockSize)` and advances
`currentEndTime`.  Both loops produce exactly this list. -/
def mkBuckets (startT blockSize : Int) : Nat → List TimespanBucket
  | 0 => []
  | n + 1 =>
    NewTimespanBucket startT (startT + blockSize) :: mkBuckets (startT + blockSize) blockSize n

/-- `NewScheduler(ctx, blockSize, numBlocks)` at clock value `now`.
Go's `numBlocks` is an `int`; a non-positive value makes the seeding loop run
zero times, so `buckets` is empty and no error is reported. -/
def NewScheduler (now blockSize : Int) (numBlocks : Int) : Scheduler :=
  { buckets := mkBuckets now blockSize numBlocks.toNat
    blockSize := blockSize
    numBlocks := numBlocks }

/-- The index search of `update` (lines 123–130): `startIdx` is the index of the
first bucket that is not `Past()`, and keeps its zero initialisation when every
bucket is `Past()` (or the list is empty). -/
def findFirstNotPast (buckets : List TimespanBucket) (now : Int) : Option Nat :=
  match buckets with
  | [] => none
  | b :: rest =>
    if b.Past now then (findFirstNotPast rest now).map (· + 1) else some 0

/-- `startIdx` as computed by `update`: zero when no bucket fails `Past()`. -/
def findStartIdx (buckets : List TimespanBucket) (now : Int) : Nat :=
  (findFirstNotPast buckets now).getD 0

/-- The salvage loop of `update` (lines 132–137), verbatim:
`for i := 0; i < startIdx; i++ { if s.buckets[i].Size() > 0 {
overdueItems = append(overdueItems, s.buckets[0].elements...) } }`.
Note that the body reads `s.buckets[0]`, not `s.buckets[i]`. -/
def salvage (buckets : List TimespanBucket) (startIdx : Nat) : List Item :=
  (List.range startIdx).foldl
    (fun acc i =>
      if (buckets.getD i (NewTimespanBucket 0 0)).Size > 0 then
        acc ++ (buckets.getD 0 (NewTimespanBucket 0 0)).elements
      else acc)
    []

/-- `Scheduler.update()` at clock value `now` (lines 121–152).  After dropping
the first `startIdx` buckets, the code reads `s.buckets[len(s.buckets)-1]`
(the last bucket, here `t1.getLastD b1`), appends `startIdx + 1` fresh buckets
after its end, and extends the head bucket's elements with the salvaged items.
When the dropped slice is empty the indexing panics (`index out of range [-1]`
at line 141), modelled as `none`; otherwise the head of the appended list is
the head `b1` of the dropped slice, written out directly. -/
def update (s : Scheduler) (now : Int) : Option Scheduler :=
  let startIdx := findStartIdx s.buckets now
  let overdueItems := salvage s.buckets startIdx
  match s.buckets.drop startIdx with
  | [] => none
  | b1 :: t1 =>
    let lastBucket := t1.getLastD b1
    let newBuckets := mkBuckets lastBucket.endTime s.blockSize (startIdx + 1)
    some { s with buckets :=
      { b1 with elements := b1.elements ++ overdueItems } :: (t1 ++ newBuckets) }

/-- The final placement loop of `AddReminder` (lines 172–177): add the entity to
the first bucket that `Contains` its due time; change nothing when no bucket
does. -/
def addToContaining (buckets : List TimespanBucket) (entity : Item) : List TimespanBucket :=
  match buckets with
  | [] => []
  | b :: rest =>
    if b.Contains entity.dueTime then b.AddEntity entity :: rest
    else b :: addToContaining rest entity

/-- The classification performed by `AddReminder` after its call to `update`
(lines 160–177): head bucket if `IsAfter`, else last bucket if `IsBefore`,
else the first bucket that `Contains` the due time. -/
def classifyAdd (buckets : List TimespanBucket) (entity : Item) : List TimespanBucket :=
  match buckets with
  | [] => []
  | b0 :: rest =>
    if b0.IsAfter entity.dueTime then b0.AddEntity entity :: rest
    else
      match (b0 :: rest).getLast? with
      | none => []
      | some lastBucket =>
        if lastBucket.IsBefore entity.dueTime then
          (b0 :: rest).dropLast ++ [lastBucket.AddEntity entity]
        else addToContaining (b0 :: rest) entity

/-- `Scheduler.AddReminder(entity)` at clock value `now` (lines 154–179). -/
def AddReminder (s : Scheduler) (now : Int) (entity : Item) : Option Scheduler :=
  match update s now with
  | none => none
  | some s1 => some { s1 with buckets := classifyAdd s1.buckets entity }

/-- Index removal `append(elements[:realIdx], elements[realIdx+1:]...)`. -/
def removeAt (l : List Item) (i : Nat) : List Item :=
  l.take i ++ l.drop (i + 1)

/-- The collection loop of `Due` (lines 190–196) restricted to the indices:
the positions (offset by `base`) of the elements already due. -/
def dueIdxs (l : List Item) (now : Int) (base : Nat) : List Nat :=
  match l with
  | [] => []
  | x :: xs =>
    if x.dueTime < now then base :: dueIdxs xs now (base + 1)
    else dueIdxs xs now (base + 1)

/-- The removal loop of `Due` (lines 198–202): for the `i`-th recorded index
`idx`, remove position `idx - i` ("we have removed i elements so we need to
subtract that from the index"). -/
def shuffleRemove (l : List Item) (idxs : List Nat) (i : Nat) : List Item :=
  match idxs with
  | [] => l
  | idx :: rest => shuffleRemove (removeAt l (idx - i)) rest (i + 1)

/-- `Scheduler.Due()` at clock value `now` (lines 181–205): `update`, then scan
the head bucket collecting every element with `DueTime().Before(now)` together
with its index, then remove those indices with the shifting loop.  Returns the
post-state and the returned slice. -/
def Due (s : Scheduler) (now : Int) : Option (Scheduler × List Item) :=
  match update s now with
  | none => none
  | some s1 =>
    match s1.buckets with
    | [] => none
    | b0 :: rest =>
      let dueItems := b0.elements.filter (fun e => e.dueTime < now)
      let idxs := dueIdxs b0.elements now 0
      let newElements := shuffleRemove b0.elements idxs 0
      some ({ s1 with buckets := { b0 with elements := newElements } :: rest }, dueItems)

/-- `Scheduler.Dump()` at clock value `now` (lines 207–219): its only state
effect is the initial `update`; the printing is I/O only. -/
def Dump (s : Scheduler) (now : Int) : Option Scheduler :=
  update s now

/-- A public operation together with the clock value at which it runs. -/
inductive Op where
  | add (now : Int) (entity : Item)
  | due (now : Int)
  | dump (now : Int)
deriving Repr, DecidableEq

/-- Run one public operation. -/
def applyOp (s : Scheduler) : Op → Option Scheduler
  | Op.add now entity => AddReminder s now entity
  | Op.due now => (Due s now).map Prod.fst
  | Op.dump now => Dump s now

/-- Run a sequence of public operations. -/
def runOps (s : Scheduler) : List Op → Option Scheduler
  | [] => some s
  | op :: rest => (applyOp s op).bind (fun s1 => runOps s1 rest)

/-- Consecutive buckets meet exactly: `w[i].end == w[i+1].start`. -/
def contiguous (buckets : List TimespanBucket) : Prop :=
  List.Chain' (fun a b => a.endTime = b.startTime) buckets

/-- `IdxBound k idxs`: the `j`-th entry of `idxs` is at least `k + j`.  This is
the invariant relating the index list recorded by `Due` to its removal
counter. -/
def IdxBound : Nat → List Nat → Prop
  | _, [] => True
  | k, idx :: rest => k ≤ idx ∧ IdxBound (k + 1) rest

/-- The interval bounds of a bucket, forgetting its items. -/
def boundsOf (b : TimespanBucket) : Int × Int :=
  (b.startTime, b.endTime)

instance instDecidableContiguous : (l : List TimespanBucket) → Decidable (contiguous l)
  | [] => isTrue List.chain'_nil
  | [_] => isTrue (List.chain'_singleton _)
  | a :: b :: rest =>
    have : Decidable (contiguous (b :: rest)) := instDecidableContiguous (b :: rest)
    decidable_of_iff (a.endTime = b.startTime ∧ contiguous (b :: rest))
      (@List.chain'_cons TimespanBucket (fun p q => p.endTime = q.startTime) a b rest).symm

end TimeScheduler

namespace TimeScheduler

/-- C1: the salvage loop (lines 132–137) reads `s.buckets[0].elements` instead of
`s.buckets[i].elements`.  Failing input: wheel `blockSize = 2`, `numBlocks = 3`
built at time 0; `AddReminder` at time 0 of an item due at 3 stores it in the
window `[2,4)`; at time 5 the windows `[0,2)` and `[2,4)` have both elapsed, and
the next operation (`Due` at time 5) discards the item entirely — it is in no
window of the resulting wheel, contradicting the claim that it reappears in the
new head window exactly once. -/
theorem C1_salvage_loses_item_in_second_elapsed_window :
    (AddReminder (NewScheduler 0 2 3) 0 ⟨3, "x"⟩).map
        (fun s1 => s1.buckets.map (fun b => b.elements)) =
      some [[], [⟨3, "x"⟩], [], []] ∧
    ((AddReminder (NewScheduler 0 2 3) 0 ⟨3, "x"⟩).bind (fun s1 => Due s1 5)).map
        (fun p => (p.2, (p.1.buckets.map (fun b => b.elements)).flatten)) =
      some ([], []) := by
  decide

/-- C2: the re-anchoring loop (line 143, `for j := 0; j <= startIdx; j++`)
appends `startIdx + 1` new windows after dropping `startIdx` elapsed ones, so
a single `update` with no elapsed window (`startIdx = 0`) grows the wheel from
`numBlocks = 2` windows to 3, contradicting the fixed-length invariant. -/
theorem C2_update_grows_bucket_count :
    (NewScheduler 0 2 2).buckets.length = 2 ∧
    findStartIdx (NewScheduler 0 2 2).buckets 0 = 0 ∧
    (update (NewScheduler 0 2 2) 0).map (fun s => s.buckets.length) = some 3 := by
  decide

/-- C3: with no elapsed window (`startIdx = 0`) `update` still appends one new
window, so running it twice at the same instant yields a different (longer)
window sequence than running it once — re-anchoring is not idempotent. -/
theorem C3_update_not_idempotent_when_none_elapsed :
    findStartIdx (NewScheduler 0 2 2).buckets 0 = 0 ∧
    (update (NewScheduler 0 2 2) 0).bind (fun s => update s 0) ≠
      update (NewScheduler 0 2 2) 0 := by
  decide

/-- C5: when every window has elapsed, the search loop (lines 125–130) never
executes its body, `startIdx` keeps its zero initialisation, and `update` drops
nothing: after re-anchoring at time 100 the head window is still `[0,2)`, which
is elapsed — its end is not in the future. -/
theorem C5_head_remains_elapsed_when_all_windows_elapsed :
    (∀ b ∈ (NewScheduler 0 2 2).buckets, b.Past 100 = true) ∧
    (update (NewScheduler 0 2 2) 100).map
        (fun s => s.buckets.head?.map (fun b => (b.endTime, b.Past 100))) =
      some (some (2, true)) := by
  decide

/-- C8 counterexample: at a current time exactly equal to the window's end, the
claim says `isElapsed()` is true, but `Past()` uses `time.Now().After(endTime)`
(strict), so it returns false. -/
theorem C8_elapsed_false_at_exact_end :
    (NewTimespanBucket 0 10).endTime = 10 ∧
    (NewTimespanBucket 0 10).Past 10 = false := by
  decide

/-- C8 (amended): `Past()` is true iff the current time is strictly greater
than the window's end. -/
theorem C8_past_iff_strictly_after_end (t : TimespanBucket) (now : Int) :
    t.Past now = true ↔ t.endTime < now := by
  simp [TimespanBucket.Past]

/-- C9 counterexample: construction with `numBlocks = 0` does not fail — it
returns a scheduler with an empty window sequence; the invalid configuration
surfaces only on the next operation, whose re-anchor hits the
`s.buckets[len(s.buckets)-1]` panic (modelled as `none`). -/
theorem C9_nonpositive_numblocks_construction_succeeds :
    (NewScheduler 0 2 0).buckets = [] ∧
    update (NewScheduler 0 2 0) 1 = none := by
  decide

/-- C9 (amended): for every `numBlocks ≤ 0`, `NewScheduler` succeeds and
returns a wheel with zero windows, and every subsequent operation's re-anchor
fails (index panic on the empty window sequence) — the invalid configuration is
not rejected at construction time but surfaces later. -/
theorem C9_nonpositive_numblocks_fails_later (now blockSize n : Int) (h : n ≤ 0) :
    (NewScheduler now blockSize n).buckets = [] ∧
    ∀ now2, update (NewScheduler now blockSize n) now2 = none := by
  have hn : n.toNat = 0 := Int.toNat_of_nonpos h
  refine ⟨?_, ?_⟩
  · simp [NewScheduler, hn, mkBuckets]
  · intro now2
    simp [update, NewScheduler, hn, mkBuckets, findFirstNotPast, salvage]

theorem C9_witness :
    (NewScheduler 5 2 (-1)).buckets = [] ∧ update (NewScheduler 5 2 (-1)) 7 = none :=
  ⟨(C9_nonpositive_numblocks_fails_later 5 2 (-1) (by decide)).1,
   (C9_nonpositive_numblocks_fails_later 5 2 (-1) (by decide)).2 7⟩

/-- C4 counterexample: an item whose due time equals the current time ("at"
now) is, per the claim, due — but `Due` uses `entity.DueTime().Before(now)`
(strict), returns the empty slice and leaves the item in the head window. -/
theorem C4_due_time_equal_now_not_returned :
    (AddReminder (NewScheduler 0 10 1) 0 ⟨5, "a"⟩).map
        (fun s1 => s1.buckets.head?.map (fun b => b.elements)) =
      some (some [⟨5, "a"⟩]) ∧
    ((AddReminder (NewScheduler 0 10 1) 0 ⟨5, "a"⟩).bind (fun s1 => Due s1 5)).map
        (fun p => (p.2, p.1.buckets.head?.map (fun b => b.elements))) =
      some ([], some [⟨5, "a"⟩]) := by
  decide

end TimeScheduler

namespace TimeScheduler

theorem idxBound_mono : ∀ (l : List Nat) (k k' : Nat), k ≤ k' → IdxBound k' l → IdxBound k l
  | [], _, _, _, _ => trivial
  | _ :: rest, k, k', h, hb =>
    ⟨le_trans h hb.1, idxBound_mono rest (k + 1) (k' + 1) (by omega) hb.2⟩

theorem dueIdxs_bound (now : Int) : ∀ (l : List Item) (base : Nat),
    IdxBound base (dueIdxs l now base)
  | [], _ => trivial
  | x :: xs, base => by
    unfold dueIdxs
    split
    · exact ⟨le_refl _, dueIdxs_bound now xs (base + 1)⟩
    · exact idxBound_mono _ base (base + 1) (by omega) (dueIdxs_bound now xs (base + 1))

theorem removeAt_cons_succ (x : Item) (xs : List Item) (m : Nat) :
    removeAt (x :: xs) (m + 1) = x :: removeAt xs m := by
  simp [removeAt]

/-- When every recorded index exceeds the current removal counter, the head
element survives the whole removal loop. -/
theorem shuffleRemove_cons (x : Item) : ∀ (idxs : List Nat) (i : Nat) (xs : List Item),
    IdxBound (i + 1) idxs →
    shuffleRemove (x :: xs) idxs i = x :: shuffleRemove xs idxs (i + 1)
  | [], _, _, _ => rfl
  | idx :: rest, i, xs, hb => by
    have hm : idx - i = (idx - (i + 1)) + 1 := by
      have := hb.1
      omega
    show shuffleRemove (removeAt (x :: xs) (idx - i)) rest (i + 1) = _
    rw [hm, removeAt_cons_succ]
    rw [shuffleRemove_cons x rest (i + 1) (removeAt xs (idx - (i + 1))) hb.2]
    rfl

/-- The removal loop of `Due`, run on the indices it recorded, is a stable
filter: it removes exactly the already-due elements and keeps the rest in
order. -/
theorem shuffleRemove_dueIdxs (now : Int) : ∀ (l : List Item) (base : Nat),
    shuffleRemove l (dueIdxs l now base) base =
      l.filter (fun e => !decide (e.dueTime < now))
  | [], _ => rfl
  | x :: xs, base => by
    by_cases hx : x.dueTime < now
    · simp only [dueIdxs, if_pos hx]
      show shuffleRemove (removeAt (x :: xs) (base - base)) (dueIdxs xs now (base + 1)) (base + 1) = _
      have h0 : base - base = 0 := by omega
      have h1 : removeAt (x :: xs) 0 = xs := by simp [removeAt]
      rw [h0, h1, shuffleRemove_dueIdxs now xs (base + 1)]
      simp [List.filter_cons, hx]
    · simp only [dueIdxs, if_neg hx]
      rw [shuffleRemove_cons x (dueIdxs xs now (base + 1)) base xs (dueIdxs_bound now xs (base + 1))]
      rw [shuffleRemove_dueIdxs now xs (base + 1)]
      simp [List.filter_cons, hx]

/-- C4 (amended): after re-anchoring, `Due` inspects only the head window,
removes from it and returns exactly the items whose due time is **strictly
before** the current time (the code uses `DueTime().Before(now)`, so an item
due exactly at `now` is not yet returned), preserving the removed items'
relative insertion order, and leaves every other item in the head window in
order. -/
theorem C4_due_returns_strictly_overdue_in_order (s : Scheduler) (now : Int)
    (s1 : Scheduler) (b0 : TimespanBucket) (rest : List TimespanBucket)
    (h1 : update s now = some s1) (h2 : s1.buckets = b0 :: rest) :
    Due s now =
      some ({ s1 with buckets :=
                { b0 with elements :=
                    b0.elements.filter (fun e => !decide (e.dueTime < now)) } :: rest },
            b0.elements.filter (fun e => decide (e.dueTime < now))) := by
  unfold Due
  rw [h1]
  simp only [h2, shuffleRemove_dueIdxs]

/-- C4 witness: head window `[0,10)` holding items due at `3`, `4`, `10` and
current time `5` (the spec's `t-2, t-1, t+5` example): `Due` returns the two
overdue items in insertion order and leaves the third in the head window. -/
theorem C4_due_witness :
    Due ⟨[⟨0, 10, [⟨3, "a"⟩, ⟨4, "b"⟩, ⟨10, "c"⟩]⟩], 10, 1⟩ 5 =
      some (⟨[⟨0, 10, [⟨10, "c"⟩]⟩, ⟨10, 20, []⟩], 10, 1⟩, [⟨3, "a"⟩, ⟨4, "b"⟩]) := by
  rw [C4_due_returns_strictly_overdue_in_order
        ⟨[⟨0, 10, [⟨3, "a"⟩, ⟨4, "b"⟩, ⟨10, "c"⟩]⟩], 10, 1⟩ 5
        ⟨[⟨0, 10, [⟨3, "a"⟩, ⟨4, "b"⟩, ⟨10, "c"⟩]⟩, ⟨10, 20, []⟩], 10, 1⟩
        ⟨0, 10, [⟨3, "a"⟩, ⟨4, "b"⟩, ⟨10, "c"⟩]⟩ [⟨10, 20, []⟩]
        (by decide) rfl]
  decide

end TimeScheduler

namespace TimeScheduler

theorem boundsOf_addEntity (b : TimespanBucket) (e : Item) :
    boundsOf (b.AddEntity e) = boundsOf b := rfl

theorem mkBuckets_head_start (startT bsz : Int) (n : Nat) :
    ∀ b ∈ (mkBuckets startT bsz n).head?, b.startTime = startT := by
  cases n <;> simp [mkBuckets, NewTimespanBucket]

theorem chain'_mkBuckets : ∀ (n : Nat) (startT bsz : Int),
    List.Chain' (fun a b => a.endTime = b.startTime) (mkBuckets startT bsz n)
  | 0, _, _ => List.chain'_nil
  | n + 1, startT, bsz => by
    rw [mkBuckets]
    refine List.chain'_cons'.mpr ⟨?_, chain'_mkBuckets n (startT + bsz) bsz⟩
    intro y hy
    have := mkBuckets_head_start (startT + bsz) bsz n y hy
    simp [NewTimespanBucket, this]

theorem chain'_drop {α : Type} {R : α → α → Prop} :
    ∀ (n : Nat) (l : List α), List.Chain' R l → List.Chain' R (l.drop n)
  | 0, _, h => h
  | _ + 1, [], _ => by simp
  | n + 1, _ :: t, h => by simpa using chain'_drop n t h.tail

theorem contiguous_iff_bounds (l : List TimespanBucket) :
    contiguous l ↔ List.Chain' (fun p q : Int × Int => p.2 = q.1) (l.map boundsOf) := by
  rw [List.chain'_map]
  exact Iff.rfl

theorem contiguous_congr {l1 l2 : List TimespanBucket}
    (h : l1.map boundsOf = l2.map boundsOf) : contiguous l1 ↔ contiguous l2 := by
  rw [contiguous_iff_bounds, contiguous_iff_bounds, h]

theorem getLast?_cons_eq_getLastD {α : Type} : ∀ (l : List α) (a : α),
    (a :: l).getLast? = some (l.getLastD a)
  | [], _ => rfl
  | b :: t, a => by
    rw [List.getLast?_cons_cons, getLast?_cons_eq_getLastD t b, List.getLastD_cons]

/-- Closed-form equation for `update` when the dropped slice is non-empty. -/
theorem update_eq_cons (s : Scheduler) (now : Int) (b1 : TimespanBucket)
    (t1 : List TimespanBucket)
    (hd : s.buckets.drop (findStartIdx s.buckets now) = b1 :: t1) :
    update s now = some { s with buckets :=
      { b1 with elements :=
          b1.elements ++ salvage s.buckets (findStartIdx s.buckets now) } ::
        (t1 ++ mkBuckets (t1.getLastD b1).endTime s.blockSize
            (findStartIdx s.buckets now + 1)) } := by
  unfold update
  dsimp only
  rw [hd]

/-- `update` fails (the Go code panics) exactly when the dropped slice is
empty. -/
theorem update_eq_none (s : Scheduler) (now : Int)
    (hd : s.buckets.drop (findStartIdx s.buckets now) = []) :
    update s now = none := by
  unfold update
  dsimp only
  rw [hd]

/-- Re-anchoring preserves window contiguity. -/
theorem update_contiguous (s : Scheduler) (now : Int) (s' : Scheduler)
    (hc : contiguous s.buckets) (h : update s now = some s') : contiguous s'.buckets := by
  cases hd : s.buckets.drop (findStartIdx s.buckets now) with
  | nil => rw [update_eq_none s now hd] at h; simp at h
  | cons b1 t1 =>
    rw [update_eq_cons s now b1 t1 hd] at h
    have hchain1 : List.Chain' (fun a b => a.endTime = b.startTime) (b1 :: t1) := by
      rw [← hd]; exact chain'_drop _ _ hc
    have hlast : (b1 :: t1).getLast? = some (t1.getLastD b1) :=
      getLast?_cons_eq_getLastD t1 b1
    have hchain2 : List.Chain' (fun a b => a.endTime = b.startTime)
        ((b1 :: t1) ++ mkBuckets (t1.getLastD b1).endTime s.blockSize
            (findStartIdx s.buckets now + 1)) := by
      refine List.chain'_append.mpr ⟨hchain1, chain'_mkBuckets _ _ _, ?_⟩
      intro x hx y hy
      rw [hlast] at hx
      simp only [Option.mem_def, Option.some_inj] at hx
      subst hx
      have := mkBuckets_head_start (t1.getLastD b1).endTime s.blockSize
        (findStartIdx s.buckets now + 1) y hy
      rw [this]
    simp only [Option.some_inj] at h
    subst h
    refine List.chain'_cons'.mpr ⟨?_, (List.chain'_cons'.mp hchain2).2⟩
    intro y hy
    exact (List.chain'_cons'.mp hchain2).1 y hy

theorem addToContaining_bounds (e : Item) : ∀ (l : List TimespanBucket),
    (addToContaining l e).map boundsOf = l.map boundsOf
  | [] => rfl
  | b :: rest => by
    unfold addToContaining
    split
    · rfl
    · simp only [List.map_cons, addToContaining_bounds e rest]

theorem classifyAdd_bounds (e : Item) (l : List TimespanBucket) :
    (classifyAdd l e).map boundsOf = l.map boundsOf := by
  cases l with
  | nil => rfl
  | cons b0 rest =>
    have hne : (b0 :: rest) ≠ [] := by simp
    unfold classifyAdd
    dsimp only
    rw [List.getLast?_eq_getLast (b0 :: rest) hne]
    dsimp only
    split
    · rfl
    · split
      · conv_rhs => rw [← List.dropLast_append_getLast hne]
        simp [List.map_append, boundsOf, TimespanBucket.AddEntity]
      · exact addToContaining_bounds e (b0 :: rest)

theorem applyOp_contiguous (s : Scheduler) (op : Op) (s' : Scheduler)
    (hc : contiguous s.buckets) (h : applyOp s op = some s') : contiguous s'.buckets := by
  cases op with
  | add now e =>
    simp only [applyOp, AddReminder] at h
    cases hu : update s now with
    | none => rw [hu] at h; simp at h
    | some s1 =>
      rw [hu] at h
      simp only [Option.some_inj] at h
      subst h
      have h1 := update_contiguous s now s1 hc hu
      exact (contiguous_congr (classifyAdd_bounds e s1.buckets)).mpr h1
  | due now =>
    simp only [applyOp, Due] at h
    cases hu : update s now with
    | none => rw [hu] at h; simp at h
    | some s1 =>
      rw [hu] at h
      dsimp only at h
      have h1 := update_contiguous s now s1 hc hu
      cases hb : s1.buckets with
      | nil => rw [hb] at h; simp at h
      | cons b0 rest =>
        rw [hb] at h
        simp only [Option.map_some', Option.some_inj] at h
        subst h
        rw [hb] at h1
        refine List.chain'_cons'.mpr ⟨?_, (List.chain'_cons'.mp h1).2⟩
        intro y hy
        exact (List.chain'_cons'.mp h1).1 y hy
  | dump now =>
    exact update_contiguous s now s' hc h

theorem runOps_contiguous : ∀ (ops : List Op) (s s' : Scheduler),
    contiguous s.buckets → runOps s ops = some s' → contiguous s'.buckets
  | [], s, s', hc, h => by
    simp only [runOps, Option.some_inj] at h
    subst h
    exact hc
  | op :: rest, s, s', hc, h => by
    unfold runOps at h
    cases ha : applyOp s op with
    | none => rw [ha] at h; simp at h
    | some s1 =>
      rw [ha] at h
      simp only [Option.some_bind] at h
      exact runOps_contiguous rest s1 s' (applyOp_contiguous s op s1 hc ha) h

/-- C7: after construction and after any sequence of public operations
(`AddReminder`, `Due`, `Dump`), consecutive windows are contiguous:
`windows[i].end == windows[i+1].start` for every valid `i`. -/
theorem C7_windows_always_contiguous (now0 blockSize numBlocks : Int)
    (ops : List Op) (s' : Scheduler)
    (h : runOps (NewScheduler now0 blockSize numBlocks) ops = some s') :
    contiguous s'.buckets :=
  runOps_contiguous ops (NewScheduler now0 blockSize numBlocks) s'
    (chain'_mkBuckets _ _ _) h

/-- C7 witness: one `Dump` at time 1 on a fresh two-window wheel built at
time 0; the resulting (three-window) sequence is contiguous. -/
theorem C7_witness :
    contiguous (Scheduler.mk [⟨0, 2, []⟩, ⟨2, 4, []⟩, ⟨4, 6, []⟩] 2 2).buckets :=
  C7_windows_always_contiguous 0 2 2 [Op.dump 1]
    (Scheduler.mk [⟨0, 2, []⟩, ⟨2, 4, []⟩, ⟨4, 6, []⟩] 2 2) (by decide)

end TimeScheduler

namespace TimeScheduler

/-- Every bucket in the prefix dropped by `update` (the first `startIdx`
buckets) satisfies `Past()`: the scan stops at the first non-elapsed bucket. -/
theorem take_findStartIdx_past : ∀ (bs : List TimespanBucket) (now : Int),
    ∀ b ∈ bs.take (findStartIdx bs now), b.Past now = true
  | [], _, b, hb => by simp at hb
  | x :: rest, now, b, hb => by
    by_cases hx : x.Past now = true
    · cases hfr : findFirstNotPast rest now with
      | none =>
        have h0 : findStartIdx (x :: rest) now = 0 := by
          simp [findStartIdx, findFirstNotPast, hx, hfr]
        rw [h0] at hb
        simp at hb
      | some i =>
        have hidx : findStartIdx (x :: rest) now = i + 1 := by
          simp [findStartIdx, findFirstNotPast, hx, hfr]
        rw [hidx, List.take_succ_cons] at hb
        rcases List.mem_cons.mp hb with rfl | hb2
        · exact hx
        · refine take_findStartIdx_past rest now b ?_
          have : findStartIdx rest now = i := by simp [findStartIdx, hfr]
          rw [this]
          exact hb2
    · have h0 : findStartIdx (x :: rest) now = 0 := by
        simp [findStartIdx, findFirstNotPast, hx]
      rw [h0] at hb
      simp at hb

/-- C10: re-anchoring never discards a live window.  Every window in the
prefix that `update` drops satisfies `Past()`, and every window of the
pre-state that is not elapsed is still present (same bounds) in the
post-state. -/
theorem C10_update_drops_only_elapsed_windows (s : Scheduler) (now : Int) (s' : Scheduler)
    (h : update s now = some s') :
    (∀ b ∈ s.buckets.take (findStartIdx s.buckets now), b.Past now = true) ∧
    (∀ b ∈ s.buckets, b.Past now = false →
      ∃ b' ∈ s'.buckets, b'.startTime = b.startTime ∧ b'.endTime = b.endTime) := by
  refine ⟨take_findStartIdx_past s.buckets now, ?_⟩
  intro b hb hpast
  cases hd : s.buckets.drop (findStartIdx s.buckets now) with
  | nil => rw [update_eq_none s now hd] at h; simp at h
  | cons b1 t1 =>
    rw [update_eq_cons s now b1 t1 hd] at h
    simp only [Option.some_inj] at h
    subst h
    have hbdrop : b ∈ s.buckets.drop (findStartIdx s.buckets now) := by
      have hsplit := List.take_append_drop (findStartIdx s.buckets now) s.buckets
      rw [← hsplit] at hb
      rcases List.mem_append.mp hb with h1 | h2
      · exact absurd (take_findStartIdx_past s.buckets now b h1) (by simp [hpast])
      · exact h2
    rw [hd] at hbdrop
    rcases List.mem_cons.mp hbdrop with rfl | hbt
    · exact ⟨_, List.mem_cons_self _ _, rfl, rfl⟩
    · exact ⟨b, by simp [hbt], rfl, rfl⟩

/-- C10 witness: wheel `[0,2), [2,4)` at time 3 — the dropped prefix (just
`[0,2)`) is elapsed, and the live window `[2,4)` survives re-anchoring. -/
theorem C10_witness :
    (∀ b ∈ (NewScheduler 0 2 2).buckets.take
        (findStartIdx (NewScheduler 0 2 2).buckets 3), b.Past 3 = true) ∧
    (∀ b ∈ (NewScheduler 0 2 2).buckets, b.Past 3 = false →
      ∃ b' ∈ (Scheduler.mk [⟨2, 4, []⟩, ⟨4, 6, []⟩, ⟨6, 8, []⟩] 2 2).buckets,
        b'.startTime = b.startTime ∧ b'.endTime = b.endTime) :=
  C10_update_drops_only_elapsed_windows (NewScheduler 0 2 2) 3
    (Scheduler.mk [⟨2, 4, []⟩, ⟨4, 6, []⟩, ⟨6, 8, []⟩] 2 2) (by decide)

end TimeScheduler

namespace TimeScheduler

theorem contains_iff (b : TimespanBucket) (t : Int) :
    b.Contains t = true ↔ (b.startTime < t ∧ t < b.endTime) := by
  simp [TimespanBucket.Contains]

theorem contains_false_iff (b : TimespanBucket) (t : Int) :
    b.Contains t = false ↔ (t ≤ b.startTime ∨ b.endTime ≤ t) := by
  rw [← Bool.not_eq_true, contains_iff]
  omega

/-- In a contiguous list of positive-width buckets, every bucket after the
head starts at or after the head's end. -/
theorem later_start_ge : ∀ (l : List TimespanBucket) (b : TimespanBucket),
    List.Chain' (fun a c => a.endTime = c.startTime) (b :: l) →
    (∀ x ∈ b :: l, x.startTime < x.endTime) →
    ∀ x ∈ l, b.endTime ≤ x.startTime
  | [], _, _, _, x, hx => by simp at hx
  | c :: l', b, hc, hw, x, hx => by
    have hbc := (List.chain'_cons.mp hc).1
    rcases List.mem_cons.mp hx with rfl | hx'
    · exact le_of_eq hbc
    · have ih := later_start_ge l' c (List.chain'_cons.mp hc).2
        (fun y hy => hw y (by simp [hy])) x hx'
      have hcw : c.startTime < c.endTime := hw c (by simp)
      omega

theorem addToContaining_eq_of_none : ∀ (l : List TimespanBucket) (e : Item),
    (∀ x ∈ l, x.Contains e.dueTime = false) → addToContaining l e = l
  | [], _, _ => rfl
  | b :: rest, e, h => by
    unfold addToContaining
    rw [h b (by simp)]
    simp only [Bool.false_eq_true, if_false]
    rw [addToContaining_eq_of_none rest e (fun x hx => h x (by simp [hx]))]

/-- Core placement analysis: in a contiguous positive-width bucket list whose
head starts at or before the due time and whose last bucket ends at or after
it, either exactly one bucket strictly contains the due time (and the
placement loop appends there), or the due time lies exactly on a bucket
boundary and the loop changes nothing. -/
theorem place_unique_or_boundary :
    ∀ (rest : List TimespanBucket) (b : TimespanBucket) (e : Item),
    List.Chain' (fun a c => a.endTime = c.startTime) (b :: rest) →
    (∀ x ∈ b :: rest, x.startTime < x.endTime) →
    b.startTime ≤ e.dueTime →
    e.dueTime ≤ (rest.getLastD b).endTime →
    (∃ pre bc post, b :: rest = pre ++ bc :: post ∧ bc.Contains e.dueTime = true ∧
        (∀ x ∈ pre, x.Contains e.dueTime = false) ∧
        (∀ x ∈ post, x.Contains e.dueTime = false) ∧
        addToContaining (b :: rest) e = pre ++ bc.AddEntity e :: post) ∨
    ((∃ bb ∈ b :: rest, e.dueTime = bb.startTime ∨ e.dueTime = bb.endTime) ∧
        addToContaining (b :: rest) e = b :: rest)
  | [], b, e, _, _, hlo, hhi => by
    by_cases h1 : b.startTime < e.dueTime
    · by_cases h2 : e.dueTime < b.endTime
      · left
        refine ⟨[], b, [], rfl, (contains_iff b e.dueTime).mpr ⟨h1, h2⟩,
          by simp, by simp, ?_⟩
        unfold addToContaining
        rw [(contains_iff b e.dueTime).mpr ⟨h1, h2⟩]
        simp
      · right
        have ht : e.dueTime = b.endTime := by
          simp only [List.getLastD] at hhi
          omega
        refine ⟨⟨b, by simp, Or.inr ht⟩, ?_⟩
        exact addToContaining_eq_of_none [b] e
          (by intro x hx; simp at hx; subst hx
              exact (contains_false_iff x e.dueTime).mpr (Or.inr (le_of_eq ht.symm)))
    · right
      have ht : e.dueTime = b.startTime := by omega
      refine ⟨⟨b, by simp, Or.inl ht⟩, ?_⟩
      exact addToContaining_eq_of_none [b] e
        (by intro x hx; simp at hx; subst hx
            exact (contains_false_iff x e.dueTime).mpr (Or.inl (le_of_eq ht)))
  | c :: rest', b, e, hc, hw, hlo, hhi => by
    by_cases h2 : e.dueTime < b.endTime
    · have hothers : ∀ x ∈ c :: rest', x.Contains e.dueTime = false := by
        intro x hx
        have := later_start_ge (c :: rest') b hc hw x hx
        exact (contains_false_iff x e.dueTime).mpr (Or.inl (by omega))
      by_cases h1 : b.startTime < e.dueTime
      · left
        refine ⟨[], b, c :: rest', rfl, (contains_iff b e.dueTime).mpr ⟨h1, h2⟩,
          by simp, hothers, ?_⟩
        unfold addToContaining
        rw [(contains_iff b e.dueTime).mpr ⟨h1, h2⟩]
        simp
      · right
        have ht : e.dueTime = b.startTime := by omega
        refine ⟨⟨b, by simp, Or.inl ht⟩, ?_⟩
        refine addToContaining_eq_of_none (b :: c :: rest') e ?_
        intro x hx
        rcases List.mem_cons.mp hx with rfl | hx'
        · exact (contains_false_iff x e.dueTime).mpr (Or.inl (le_of_eq ht))
        · exact hothers x hx'
    · have hbfalse : b.Contains e.dueTime = false :=
        (contains_false_iff b e.dueTime).mpr (Or.inr (by omega))
      have hbc := (List.chain'_cons.mp hc).1
      have hlast : ((c :: rest').getLastD b) = rest'.getLastD c := List.getLastD_cons b c rest'
      have ih := place_unique_or_boundary rest' c e (List.chain'_cons.mp hc).2
        (fun y hy => hw y (by simp [hy])) (by omega) (by rw [hlast] at hhi; exact hhi)
      have hstep : addToContaining (b :: c :: rest') e = b :: addToContaining (c :: rest') e := by
        conv_lhs => rw [addToContaining]
        rw [hbfalse]
        simp
      rcases ih with ⟨pre, bc, post, heq, hcont, hpre, hpost, hadd⟩ | ⟨⟨bb, hbb, hor⟩, hfix⟩
      · left
        refine ⟨b :: pre, bc, post, by rw [List.cons_append, ← heq], hcont, ?_, hpost, ?_⟩
        · intro x hx
          rcases List.mem_cons.mp hx with rfl | hx'
          · exact hbfalse
          · exact hpre x hx'
        · rw [hstep, hadd]
          rfl
      · right
        refine ⟨⟨bb, List.mem_cons_of_mem b hbb, hor⟩, ?_⟩
        rw [hstep, hfix]

end TimeScheduler

namespace TimeScheduler

/-- Closed-form equation for `classifyAdd` on a non-empty list. -/
theorem classifyAdd_cons_eq (b0 : TimespanBucket) (rest : List TimespanBucket) (e : Item) :
    classifyAdd (b0 :: rest) e =
      if b0.IsAfter e.dueTime then b0.AddEntity e :: rest
      else if (rest.getLastD b0).IsBefore e.dueTime then
        (b0 :: rest).dropLast ++ [(rest.getLastD b0).AddEntity e]
      else addToContaining (b0 :: rest) e := by
  unfold classifyAdd
  dsimp only
  rw [getLast?_cons_eq_getLastD]

/-- C6: after re-anchoring (`AddReminder` is `update` followed by
`classifyAdd`), the classification appends the item to exactly one window's
collection — the head window if the head `IsAfter` the due time, else the tail
window if the tail `IsBefore` it, else the unique window that `Contains` it —
or to zero windows when the due time falls exactly on a window boundary. -/
theorem C6_addreminder_places_in_exactly_one_window
    (b0 : TimespanBucket) (rest : List TimespanBucket) (e : Item)
    (hc : contiguous (b0 :: rest))
    (hw : ∀ x ∈ b0 :: rest, x.startTime < x.endTime) :
    (b0.IsAfter e.dueTime = true →
        classifyAdd (b0 :: rest) e = b0.AddEntity e :: rest) ∧
    (b0.IsAfter e.dueTime = false → (rest.getLastD b0).IsBefore e.dueTime = true →
        classifyAdd (b0 :: rest) e =
          (b0 :: rest).dropLast ++ [(rest.getLastD b0).AddEntity e]) ∧
    (b0.IsAfter e.dueTime = false → (rest.getLastD b0).IsBefore e.dueTime = false →
        (∃ pre bc post, b0 :: rest = pre ++ bc :: post ∧ bc.Contains e.dueTime = true ∧
            (∀ x ∈ pre, x.Contains e.dueTime = false) ∧
            (∀ x ∈ post, x.Contains e.dueTime = false) ∧
            classifyAdd (b0 :: rest) e = pre ++ bc.AddEntity e :: post) ∨
        ((∃ bb ∈ b0 :: rest, e.dueTime = bb.startTime ∨ e.dueTime = bb.endTime) ∧
            classifyAdd (b0 :: rest) e = b0 :: rest)) := by
  refine ⟨?_, ?_, ?_⟩
  · intro hA
    simp [classifyAdd_cons_eq, hA]
  · intro hA hB
    rw [classifyAdd_cons_eq, if_neg (by simp only [hA]; exact Bool.false_ne_true), if_pos hB]
  · intro hA hB
    have hEq : classifyAdd (b0 :: rest) e = addToContaining (b0 :: rest) e := by
      rw [classifyAdd_cons_eq, if_neg (by simp only [hA]; exact Bool.false_ne_true),
        if_neg (by simp only [hB]; exact Bool.false_ne_true)]
    have hlo : b0.startTime ≤ e.dueTime := by
      simp only [TimespanBucket.IsAfter, decide_eq_false_iff_not] at hA
      omega
    have hhi : e.dueTime ≤ (rest.getLastD b0).endTime := by
      simp only [TimespanBucket.IsBefore, decide_eq_false_iff_not] at hB
      omega
    rcases place_unique_or_boundary rest b0 e hc hw hlo hhi with
      ⟨pre, bc, post, heq, hcont, hpre, hpost, hadd⟩ | ⟨hbound, hfix⟩
    · exact Or.inl ⟨pre, bc, post, heq, hcont, hpre, hpost, by rw [hEq, hadd]⟩
    · exact Or.inr ⟨hbound, by rw [hEq, hfix]⟩

/-- C6 witness: wheel `[0,2), [2,4)` and an item due at 3 — the unique
containing window is `[2,4)` and the item is appended there only. -/
theorem C6_witness :
    ((⟨0, 2, []⟩ : TimespanBucket).IsAfter (3 : Int) = true →
        classifyAdd [⟨0, 2, []⟩, ⟨2, 4, []⟩] ⟨3, "w"⟩ =
          TimespanBucket.AddEntity ⟨0, 2, []⟩ ⟨3, "w"⟩ :: [⟨2, 4, []⟩]) ∧
    ((⟨0, 2, []⟩ : TimespanBucket).IsAfter (3 : Int) = false →
        (List.getLastD [⟨2, 4, []⟩] (⟨0, 2, []⟩ : TimespanBucket)).IsBefore (3 : Int) = true →
        classifyAdd [⟨0, 2, []⟩, ⟨2, 4, []⟩] ⟨3, "w"⟩ =
          List.dropLast [⟨0, 2, []⟩, ⟨2, 4, []⟩] ++
            [(List.getLastD [⟨2, 4, []⟩] (⟨0, 2, []⟩ : TimespanBucket)).AddEntity ⟨3, "w"⟩]) ∧
    ((⟨0, 2, []⟩ : TimespanBucket).IsAfter (3 : Int) = false →
        (List.getLastD [⟨2, 4, []⟩] (⟨0, 2, []⟩ : TimespanBucket)).IsBefore (3 : Int) = false →
        (∃ pre bc post, [⟨0, 2, []⟩, ⟨2, 4, []⟩] = pre ++ bc :: post ∧
            bc.Contains (3 : Int) = true ∧
            (∀ x ∈ pre, x.Contains (3 : Int) = false) ∧
            (∀ x ∈ post, x.Contains (3 : Int) = false) ∧
            classifyAdd [⟨0, 2, []⟩, ⟨2, 4, []⟩] ⟨3, "w"⟩ = pre ++ bc.AddEntity ⟨3, "w"⟩ :: post) ∨
        ((∃ bb ∈ [(⟨0, 2, []⟩ : TimespanBucket), ⟨2, 4, []⟩],
            (3 : Int) = bb.startTime ∨ (3 : Int) = bb.endTime) ∧
            classifyAdd [⟨0, 2, []⟩, ⟨2, 4, []⟩] ⟨3, "w"⟩ = [⟨0, 2, []⟩, ⟨2, 4, []⟩])) :=
  C6_addreminder_places_in_exactly_one_window ⟨0, 2, []⟩ [⟨2, 4, []⟩] ⟨3, "w"⟩
    (by decide) (by decide)

end TimeScheduler
